import Mathlib

/-!
# Verification of the express-plus routing layer

A shallow embedding of the decorator-based routing framework:
metadata records (`src/metadata.ts`), the HTTP-method and parameter
decorators (`src/decorators/http-methods.ts`, `src/decorators/parameters.ts`),
the `@Controller` and `@Resource` class decorators, the recursive controller
registration (`src/runtime/router.ts`), the per-request handler
(`src/runtime/handler.ts`), the exception hierarchy
(`src/errors/http-exceptions.ts`) and the global error translator
(`src/runtime/application.ts`).

JavaScript strings are modelled as `List Char`; JavaScript objects used as
string-keyed maps are modelled as association lists; `undefined` is `Option`
or an explicit `Value.undefined`.  Middleware functions are opaque and carry a
numeric tag.
-/

namespace ExpressPlus

/-! ## Metadata records (`src/metadata.ts`) -/

/-- The six parameter source kinds of `ParameterMetadata["type"]`. -/
inductive PType where
  | param | query | body | headers | req | res
deriving DecidableEq

/-- `ParameterMetadata` from `src/metadata.ts`:
`{ type, name?, index }`.  The optional `name` is an `Option`. -/
structure ParameterMetadata where
  type : PType
  name : Option String
  index : Nat
deriving DecidableEq

/-- `RouteMetadata` from `src/metadata.ts`: `{ method, path, propertyKey }`.
The path is a JavaScript string, modelled as `List Char`. -/
structure RouteMetadata where
  method : String
  path : List Char
  propertyKey : String
deriving DecidableEq

/-! ## Request values and parameter resolution (`src/runtime/handler.ts`) -/

/-- A JavaScript value as far as parameter resolution observes it:
`undefined`, a string, or an object with string-keyed fields. -/
inductive Value where
  | undefined : Value
  | str : String → Value
  | obj : List (String × Value) → Value

/-- Property access `v[name]` on a body value: a field lookup on objects,
`undefined` otherwise. -/
def Value.getField : Value → String → Value
  | .obj fs, n => ((fs.lookup n).getD .undefined)
  | _, _ => .undefined

/-- The slice of an Express `Request` that `resolveParameters` reads:
`req.params`, `req.query` (string-keyed maps), `req.body`, and the header
lookup `req.get`. -/
structure Request where
  params : List (String × Value)
  query : List (String × Value)
  body : Value
  headers : List (String × Value)

/-- Object indexing `o[name]` where the key may be absent (`undefined`):
missing keys and a missing name yield `undefined`. -/
def jsGet (o : List (String × Value)) (n : Option String) : Value :=
  match n with
  | some s => (o.lookup s).getD .undefined
  | none => .undefined

/-- A resolved argument: either a plain value, or the request / response
object itself (the `req` / `res` cases of the switch). -/
inductive Arg where
  | value : Value → Arg
  | reqObject : Arg
  | resObject : Arg

/-- The `switch (param.type)` of `resolveParameters` in
`src/runtime/handler.ts`, resolving one parameter from the request.
`param.name ? req.body[param.name] : req.body` tests JavaScript truthiness,
so an absent name and the empty string both yield the whole body. -/
def resolveParam (req : Request) (p : ParameterMetadata) : Arg :=
  match p.type with
  | .param => .value (jsGet req.params p.name)
  | .query => .value (jsGet req.query p.name)
  | .body =>
      match p.name with
      | some n => if n ≠ "" then .value (req.body.getField n) else .value req.body
      | none => .value req.body
  | .headers => .value (jsGet req.headers p.name)
  | .req => .reqObject
  | .res => .resObject

/-- The comparator `(a, b) => a.index - b.index` of `resolveParameters`:
sort ascending by `index`.  JavaScript `Array.prototype.sort` is stable, so
the sort is modelled by stable insertion sort on `index ≤ index`. -/
def sortByIndex (ps : List ParameterMetadata) : List ParameterMetadata :=
  ps.insertionSort (fun a b => a.index ≤ b.index)

/-- `resolveParameters` from `src/runtime/handler.ts`: sort the parameter
metadata by index, then map each entry through the resolution switch. -/
def resolveParameters (ps : List ParameterMetadata) (req : Request) : List Arg :=
  (sortByIndex ps).map (resolveParam req)

instance : IsTotal ParameterMetadata (fun a b => a.index ≤ b.index) :=
  ⟨fun a b => Nat.le_total a.index b.index⟩

instance : IsTrans ParameterMetadata (fun a b => a.index ≤ b.index) :=
  ⟨fun _ _ _ => Nat.le_trans⟩

instance : IsAntisymm ParameterMetadata (fun a b => a.index < b.index) :=
  ⟨fun a _ h1 h2 => absurd (Nat.lt_trans h1 h2) (Nat.lt_irrefl a.index)⟩

/-! ## HTTP-method decorators (`src/decorators/http-methods.ts`) -/

/-- The path normalization of `createRouteDecorator`:
`path && !path.startsWith('/') ? '/' + path : path`. -/
def normalizeRoutePath (path : List Char) : List Char :=
  if path ≠ [] ∧ path.head? ≠ some '/' then '/' :: path else path

/-- The route metadata stored by `createRouteDecorator(method)(path)` for a
method named `key` (the `addRouteMetadata` payload). -/
def createRouteDecoratorRoute (method : String) (path : List Char) (key : String) :
    RouteMetadata :=
  { method := method, path := normalizeRoutePath path, propertyKey := key }

/-! ## `@Controller` (`src/decorators/controller.ts`) -/

/-- The prefix normalization of the `Controller` decorator:
`options.path && !options.path.startsWith("/") ? `/${options.path}` : options.path`. -/
def normalizeControllerPrefix (path : List Char) : List Char :=
  if path ≠ [] ∧ path.head? ≠ some '/' then '/' :: path else path

/-! ## Exception hierarchy (`src/errors/http-exceptions.ts`) -/

/-- The observable state of an `HttpException` instance: the `status`
field, the `Error` message, and the `name` set by the constructor. -/
structure HttpExceptionData where
  status : Nat
  message : String
  name : String
deriving DecidableEq

/-- `new HttpException(status, message)`. -/
def httpException (status : Nat) (message : String) : HttpExceptionData :=
  { status := status, message := message, name := "HttpException" }

/-- `new BadRequestException(message = 'Bad Request')`: `super(400, message)`
then `this.name = 'BadRequestException'`. -/
def badRequestException (message : Option String) : HttpExceptionData :=
  { httpException 400 (message.getD "Bad Request") with name := "BadRequestException" }

/-- `new UnauthorizedException(message = 'Unauthorized')`. -/
def unauthorizedException (message : Option String) : HttpExceptionData :=
  { httpException 401 (message.getD "Unauthorized") with name := "UnauthorizedException" }

/-- `new ForbiddenException(message = 'Forbidden')`. -/
def forbiddenException (message : Option String) : HttpExceptionData :=
  { httpException 403 (message.getD "Forbidden") with name := "ForbiddenException" }

/-- `new NotFoundException(message = 'Not Found')`. -/
def notFoundException (message : Option String) : HttpExceptionData :=
  { httpException 404 (message.getD "Not Found") with name := "NotFoundException" }

/-- `new ConflictException(message = 'Conflict')`. -/
def conflictException (message : Option String) : HttpExceptionData :=
  { httpException 409 (message.getD "Conflict") with name := "ConflictException" }

/-- `new InternalServerErrorException(message = 'Internal Server Error')`. -/
def internalServerErrorException (message : Option String) : HttpExceptionData :=
  { httpException 500 (message.getD "Internal Server Error") with
    name := "InternalServerErrorException" }

/-- The canned exception subclasses exported by `src/errors/http-exceptions.ts`,
each constructed with no argument, in file order. -/
def cannedExceptions : List HttpExceptionData :=
  [badRequestException none, unauthorizedException none, forbiddenException none,
   notFoundException none, conflictException none, internalServerErrorException none]

/-! ## Global error translator (`src/runtime/application.ts`) -/

/-- An error value reaching the `errorHandler`: either an `HttpException`
instance, or any other thrown value with optional `status` / `message` /
`stack` fields. -/
inductive ErrValue where
  | httpExc : Nat → String → Option String → ErrValue
  | other : Option Nat → Option String → Option String → ErrValue
deriving DecidableEq

/-- The JSON error response: the HTTP status set via `res.status` and the
`{ statusCode, message, stack? }` body. -/
structure ErrResponse where
  status : Nat
  statusCode : Nat
  message : String
  stack : Option String
deriving DecidableEq

/-- The `errorHandler` of the `ExpressPlus` constructor.  An
`instanceof HttpException` error is serialized with its own `status`;
otherwise `err.status || 500` and `err.message || 'Internal Server Error'`
apply JavaScript truthiness (`0`, the empty string, and `undefined` are
falsy).  The stack is spread into the body only in development mode. -/
def errorHandler (isDev : Bool) (err : ErrValue) : ErrResponse :=
  match err with
  | .httpExc st msg stk =>
      { status := st, statusCode := st, message := msg,
        stack := if isDev then stk else none }
  | .other st msg stk =>
      let status := match st with
        | some n => if n ≠ 0 then n else 500
        | none => 500
      let message := match msg with
        | some s => if s ≠ "" then s else "Internal Server Error"
        | none => "Internal Server Error"
      { status := status, statusCode := status, message := message,
        stack := if isDev then stk else none }

/-! ## Controller registration (`src/runtime/router.ts`) -/

/-- One entry of the handler array `[...middlewares, handler]` passed to
`app[route.method](fullPath, ...handlers)`: an opaque middleware function
(carrying a numeric tag) or the route handler for a method name. -/
inductive ChainEntry where
  | mw : Nat → ChainEntry
  | handler : String → ChainEntry
deriving DecidableEq

/-- A route as registered on the Express application: HTTP method, full
path, and the ordered handler chain. -/
structure RegisteredRoute where
  method : String
  path : List Char
  chain : List ChainEntry
deriving DecidableEq

/-- The observable state `registerController` touches: the application's
route table (in registration order) and the controller instances created
through the DI container (in creation order, by class name). -/
structure World where
  table : List RegisteredRoute
  instances : List String
deriving DecidableEq

/-- The empty observable state. -/
def World.empty : World := { table := [], instances := [] }

/-- A controller class as `registerController` observes it: either it has
no controller metadata (not decorated with `@Controller` / `@Resource`), or
it carries a prefix, route metadata, middleware metadata (class level and
per-method, the assoc list modelling the `Map`), and nested controllers. -/
inductive Ctrl where
  | undecorated : String → Ctrl
  | node : String → List Char → List RouteMetadata → List Nat →
      List (String × List Nat) → List Ctrl → Ctrl

/-- `getMethodMiddlewares` from `src/metadata.ts`: class middlewares first,
then the method's own middlewares (`metadata.methodMiddlewares.get(key) || []`). -/
def getMethodMiddlewares (classMWs : List Nat) (methodMWs : List (String × List Nat))
    (key : String) : List Nat :=
  classMWs ++ ((methodMWs.lookup key).getD [])

/-- The handler array `[...middlewares, handler]` built in
`registerController` for one route. -/
def buildChain (classMWs : List Nat) (methodMWs : List (String × List Nat))
    (key : String) : List ChainEntry :=
  (getMethodMiddlewares classMWs methodMWs key).map ChainEntry.mw ++ [ChainEntry.handler key]

/-- The route registered by `registerController` for one route metadata
entry: `app[route.method](fullPath, ...handlers)` with
`fullPath = fullPrefix + route.path`. -/
def mkRegRoute (fullPrefix : List Char) (classMWs : List Nat)
    (methodMWs : List (String × List Nat)) (r : RouteMetadata) : RegisteredRoute :=
  { method := r.method, path := fullPrefix ++ r.path,
    chain := buildChain classMWs methodMWs r.propertyKey }

mutual

/-- `registerController` from `src/runtime/router.ts`.  Without controller
metadata it returns at once.  Otherwise it concatenates the parent prefix
with the controller's prefix; if the controller has routes it creates the
instance through the container and registers each route at
`fullPrefix + route.path` with its middleware chain; finally it recurses
into the nested controllers with the combined prefix.  (Development-mode
logging has no observable effect and is omitted.) -/
def registerController (parentPrefix : List Char) (c : Ctrl) (w : World) : World :=
  match c with
  | .undecorated _ => w
  | .node name pfx routes classMWs methodMWs children =>
      let fullPrefix := parentPrefix ++ pfx
      let w1 :=
        if routes.length > 0 then
          let w0 : World := { w with instances := w.instances ++ [name] }
          routes.foldl (fun acc r =>
            { acc with table := acc.table ++ [mkRegRoute fullPrefix classMWs methodMWs r] }) w0
        else w
      if children.length > 0 then registerControllerList fullPrefix children w1 else w1

/-- The `for (const ChildController of controllerMetadata.controllers)`
loop of `registerController`. -/
def registerControllerList (parentPrefix : List Char) (cs : List Ctrl) (w : World) : World :=
  match cs with
  | [] => w
  | c :: rest => registerControllerList parentPrefix rest (registerController parentPrefix c w)

end

/-- The controller-registration loop of the `ExpressPlus` constructor in
`src/runtime/application.ts`: each top-level controller is registered with
the default empty parent prefix. -/
def registerAll (cs : List Ctrl) (w : World) : World :=
  cs.foldl (fun w c => registerController [] c w) w

/-- The route table produced by registering `c` under `parentPrefix`,
starting from an empty application. -/
def routesOf (parentPrefix : List Char) (c : Ctrl) : List RegisteredRoute :=
  (registerController parentPrefix c World.empty).table

/-- A linear chain of nested controllers: each prefix in the list owns the
next controller as its single nested child, and the innermost controller
holds the given routes (built with `@Controller`-style metadata and no
middleware). -/
def chainCtrl (routes : List RouteMetadata) : List (List Char) → Ctrl
  | [] => .node "C" [] routes [] [] []
  | [p] => .node "C" p routes [] [] []
  | p :: ps => .node "C" p [] [] [] [chainCtrl routes ps]

/-- Whether a string contains two adjacent separators `"//"`. -/
def hasDoubleSlash : List Char → Bool
  | c1 :: c2 :: rest => (c1 = '/' && c2 = '/') || hasDoubleSlash (c2 :: rest)
  | _ => false

/-- A well-formed path segment: starts with exactly one `'/'` separator,
does not end with one, and contains no duplicate separator inside. -/
def goodSeg (l : List Char) : Prop :=
  l.head? = some '/' ∧ l.getLast? ≠ some '/' ∧ hasDoubleSlash l = false

instance (l : List Char) : Decidable (goodSeg l) := by
  unfold goodSeg; infer_instance

/-! ## `@Resource` (`src/decorators/resource.ts`) -/

/-- `ResourceOptions`: the dotted path and the optional per-segment
parameter-name overrides (a string-keyed object, modelled as an assoc
list).  `pluralize.singular` is an external library function and stays
abstract. -/
structure ResourceOptions where
  path : List Char
  parameters : List (List Char × List Char)

/-- JavaScript `String.prototype.split('.')`: split into the (never empty)
list of substrings between the dots. -/
def splitOnDot : List Char → List (List Char)
  | [] => [[]]
  | c :: cs =>
      match splitOnDot cs with
      | [] => [[c]]
      | s :: rest => if c = '.' then [] :: s :: rest else (c :: s) :: rest

/-- The placeholder built for one segment in `createSegments`:
`:${options.parameters?.[segment] || pluralize.singular(segment) + "Id"}`. -/
def segmentParam (singular : List Char → List Char) (opts : ResourceOptions)
    (seg : List Char) : List Char :=
  ':' :: ((opts.parameters.lookup seg).getD (singular seg ++ "Id".data))

/-- `createSegments` from `src/decorators/resource.ts`: reduce over the
dot-split path, pushing each literal segment followed by its identifier
placeholder. -/
def createSegments (singular : List Char → List Char) (opts : ResourceOptions) :
    List (List Char) :=
  (splitOnDot opts.path).foldl
    (fun acc seg => acc ++ [seg, segmentParam singular opts seg]) []

/-- One entry of the `resourceActions` table. -/
structure ResourceAction where
  name : String
  placeholder : Bool
  method : String
deriving DecidableEq

/-- The `resourceActions` table from `src/decorators/resource.ts`. -/
def resourceActions : List ResourceAction :=
  [⟨"index", false, "get"⟩, ⟨"show", true, "get"⟩, ⟨"create", false, "post"⟩,
   ⟨"update", true, "put"⟩, ⟨"patch", true, "patch"⟩, ⟨"delete", true, "delete"⟩]

/-- The route metadata added by the `Resource` decorator: for each action
whose method name is present on the class (`target.prototype[name]`), a
route with the mapped HTTP verb and the path
`'/' + segments.slice(0, placeholder ? segments.length : -1).join('/')`. -/
def resourceRoutes (singular : List Char → List Char) (opts : ResourceOptions)
    (present : String → Bool) : List RouteMetadata :=
  let segments := createSegments singular opts
  resourceActions.filterMap (fun a =>
    if present a.name then
      some { method := a.method,
             path := '/' :: (List.intercalate ['/']
               (if a.placeholder then segments else segments.dropLast)),
             propertyKey := a.name }
    else none)

/-! ## Per-request handler (`src/runtime/handler.ts`, `createHandler`) -/

/-- What the handler returned by `createHandler` does with one request. -/
inductive HandlerAction (E V : Type) where
  | jsonSent : V → HandlerAction E V
  | noResponse : HandlerAction E V
  | nextCalled : E → HandlerAction E V
deriving DecidableEq

/-- The body of the `try` block of `createHandler`: resolve the parameters
(which may throw), then call the controller method (whose promise may
reject).  `Except` models thrown / rejected errors. -/
def tryBody {E A V : Type} (resolve : Except E A) (method : A → Except E (Option V)) :
    Except E (Option V) := do
  let args ← resolve
  method args

/-- `createHandler` from `src/runtime/handler.ts`: any error from the `try`
block goes to `next(error)`; on success, `res.json(result)` is called
exactly when the awaited result is not `undefined` (`Option.none`). -/
def createHandler {E A V : Type} (resolve : Except E A)
    (method : A → Except E (Option V)) : HandlerAction E V :=
  match tryBody resolve method with
  | .error e => .nextCalled e
  | .ok none => .noResponse
  | .ok (some v) => .jsonSent v

/-- A printable observation of a resolved argument, used to compare
concrete resolution results. -/
def Arg.render : Arg → String
  | .value .undefined => "undefined"
  | .value (.str s) => s
  | .value (.obj _) => "[object]"
  | .reqObject => "[request]"
  | .resObject => "[response]"

end ExpressPlus

namespace ExpressPlus

/-! # Theorems -/

/-! ## C3: leading-slash normalization of route paths -/

/-- C3 counterexample: the empty string does not start with `"/"`, yet the
route metadata stored by an HTTP-method decorator for it keeps the empty
path, which does not begin with a leading `"/"` — refuting the claim for
the input `""`. -/
theorem C3_counterexample :
    ¬ (([] : List Char).head? = some '/')
    ∧ ¬ ((createRouteDecoratorRoute "get" [] "m").path.head? = some '/') := by
  decide

/-- C3 (amended): for every non-empty path string that does not start with
`"/"`, the route metadata stored by an HTTP-method decorator has a path
beginning with exactly one leading `"/"` (it is `'/' :: path`, whose second
character is not `'/'`). -/
theorem C3_route_path_has_one_leading_slash (method key : String) (path : List Char)
    (hne : path ≠ []) (hns : path.head? ≠ some '/') :
    (createRouteDecoratorRoute method path key).path = '/' :: path
    ∧ (createRouteDecoratorRoute method path key).path.head? = some '/'
    ∧ (createRouteDecoratorRoute method path key).path.tail.head? ≠ some '/' := by
  have hpath : (createRouteDecoratorRoute method path key).path = '/' :: path := by
    simp [createRouteDecoratorRoute, normalizeRoutePath, hne, hns]
  refine ⟨hpath, ?_, ?_⟩
  · rw [hpath]; rfl
  · rw [hpath]; simpa using hns

/-- C3 witness: the amended theorem at the concrete path `"users"`. -/
theorem C3_witness :
    ("users".data ≠ [] ∧ "users".data.head? ≠ some '/')
    ∧ (createRouteDecoratorRoute "get" "users".data "list").path = '/' :: "users".data :=
  ⟨⟨by decide, by decide⟩,
    (C3_route_path_has_one_leading_slash "get" "list" "users".data (by decide) (by decide)).1⟩

/-! ## C5: middleware composition order -/

/-- C5: for every class middleware list, per-method middleware table and
method name, the composed handler chain is the class-level middleware (in
order), then the method-level middleware (in order), then the route
handler: positionally, entry `i` is the `i`-th class middleware, entry
`classMWs.length + j` is the `j`-th method middleware, and the last entry
is the handler. -/
theorem C5_middleware_order (classMWs : List Nat) (methodMWs : List (String × List Nat))
    (key : String) :
    buildChain classMWs methodMWs key
      = classMWs.map ChainEntry.mw
        ++ ((methodMWs.lookup key).getD []).map ChainEntry.mw
        ++ [ChainEntry.handler key]
    ∧ (∀ i (hi : i < classMWs.length),
        (buildChain classMWs methodMWs key)[i]? = some (ChainEntry.mw (classMWs.get ⟨i, hi⟩)))
    ∧ (∀ j (hj : j < ((methodMWs.lookup key).getD []).length),
        (buildChain classMWs methodMWs key)[classMWs.length + j]?
          = some (ChainEntry.mw (((methodMWs.lookup key).getD []).get ⟨j, hj⟩)))
    ∧ (buildChain classMWs methodMWs key).getLast? = some (ChainEntry.handler key) := by
  have heq : buildChain classMWs methodMWs key
      = classMWs.map ChainEntry.mw
        ++ (((methodMWs.lookup key).getD []).map ChainEntry.mw ++ [ChainEntry.handler key]) := by
    simp [buildChain, getMethodMiddlewares]
  refine ⟨by rw [heq, List.append_assoc], ?_, ?_, ?_⟩
  · intro i hi
    rw [heq, List.getElem?_append_left (by simpa using hi)]
    simp [List.getElem?_eq_getElem (by simpa using hi), List.get_eq_getElem]
  · intro j hj
    rw [heq, List.getElem?_append_right (by simp), List.length_map]
    rw [Nat.add_sub_cancel_left, List.getElem?_append_left (by simpa using hj)]
    simp [List.getElem?_eq_getElem (by simpa using hj), List.get_eq_getElem]
  · rw [heq, List.getLast?_append_of_ne_nil _ (by simp),
      List.getLast?_append_of_ne_nil _ (by simp)]
    rfl

/-- C5 witness: the positional statements at a concrete chain with one
class middleware and one method middleware. -/
theorem C5_witness :
    (0 < 1 ∧ (0 : Nat) < 1)
    ∧ (buildChain [4] [("k", [7])] "k")[0]? = some (ChainEntry.mw 4)
    ∧ (buildChain [4] [("k", [7])] "k")[1 + 0]? = some (ChainEntry.mw 7) :=
  ⟨⟨by decide, by decide⟩,
    by simpa using (C5_middleware_order [4] [("k", [7])] "k").2.1 0 (by decide),
    by simpa using (C5_middleware_order [4] [("k", [7])] "k").2.2.1 0 (by decide)⟩

/-! ## C6: the global error translator -/

/-- C6 counterexample: a thrown value that is not an `HttpException` but
carries a truthy numeric `status` field (here `403`) is not serialized as a
500 — `err.status || 500` keeps its own status — refuting the claim that
every non-`HttpException` error is passed through as a 500. -/
theorem C6_counterexample :
    ¬ ((errorHandler false (ErrValue.other (some 403) (some "boom") none)).statusCode = 500) := by
  decide

/-- C6 (amended): an `HttpException` instance is serialized with its own
carried status code (for the canned subclasses, their fixed code); every
other error is serialized with its own `status` field when that field is
truthy and 500 otherwise, and with its own `message` when truthy and
`"Internal Server Error"` otherwise. -/
theorem C6_error_translation (isDev : Bool) (stk : Option String) :
    (∀ st msg, errorHandler isDev (.httpExc st msg stk)
      = ⟨st, st, msg, if isDev then stk else none⟩)
    ∧ (∀ d ∈ cannedExceptions,
        (errorHandler isDev (.httpExc d.status d.message stk)).statusCode = d.status)
    ∧ (∀ msg, (errorHandler isDev (.other none msg stk)).statusCode = 500)
    ∧ (∀ msg, (errorHandler isDev (.other (some 0) msg stk)).statusCode = 500)
    ∧ (∀ n msg, n ≠ 0 → (errorHandler isDev (.other (some n) msg stk)).statusCode = n)
    ∧ (∀ st, (errorHandler isDev (.other st none stk)).message = "Internal Server Error")
    ∧ (∀ st, (errorHandler isDev (.other st (some "") stk)).message = "Internal Server Error")
    ∧ (∀ st s, s ≠ "" → (errorHandler isDev (.other st (some s) stk)).message = s) := by
  refine ⟨fun st msg => rfl, fun d _ => rfl, fun msg => rfl, fun msg => by simp [errorHandler],
    fun n msg hn => by simp [errorHandler, hn], ?_, ?_, fun st s hs => ?_⟩
  · rintro (_ | n) <;> simp [errorHandler]
  · rintro (_ | n) <;> simp [errorHandler]
  · rcases st with _ | n <;> simp [errorHandler, hs]

/-- C6 witness: a non-`HttpException` error with status `403` keeps status
`403`. -/
theorem C6_witness :
    (403 ≠ 0)
    ∧ (errorHandler false (ErrValue.other (some 403) none none)).statusCode = 403 :=
  ⟨by decide, (C6_error_translation false none).2.2.2.2.1 403 none (by decide)⟩

/-! ## C7: the exception hierarchy -/

/-- C7 counterexample: the hierarchy does not consist of five canned
subclasses — `src/errors/http-exceptions.ts` defines six. -/
theorem C7_counterexample : ¬ (cannedExceptions.length = 5) := by
  decide

/-- C7 (amended): the base status-carrying exception has six canned
subclasses covering the statuses 400/401/403/404/409/500, and each canned
exception constructed with no argument carries its documented default
message and its fixed status code. -/
theorem C7_canned_defaults :
    cannedExceptions.length = 6
    ∧ cannedExceptions.map HttpExceptionData.status = [400, 401, 403, 404, 409, 500]
    ∧ cannedExceptions.map HttpExceptionData.message
        = ["Bad Request", "Unauthorized", "Forbidden", "Not Found", "Conflict",
           "Internal Server Error"]
    ∧ cannedExceptions.map HttpExceptionData.name
        = ["BadRequestException", "UnauthorizedException", "ForbiddenException",
           "NotFoundException", "ConflictException", "InternalServerErrorException"] :=
  ⟨rfl, rfl, rfl, rfl⟩

/-! ## C10: the request handler's dispatch -/

/-- C10: the handler produced by `createHandler` forwards any error thrown
by parameter resolution or by the controller method to `next(error)`, and
on success calls `res.json(result)` exactly when the awaited result is not
`undefined`, sending no response itself when it is. -/
theorem C10_handler_dispatch (E A V : Type) (resolve : Except E A)
    (method : A → Except E (Option V)) :
    (∀ e, resolve = .error e → createHandler resolve method = .nextCalled e)
    ∧ (∀ a e, resolve = .ok a → method a = .error e →
        createHandler resolve method = .nextCalled e)
    ∧ (∀ a v, resolve = .ok a → method a = .ok (some v) →
        createHandler resolve method = .jsonSent v)
    ∧ (∀ a, resolve = .ok a → method a = .ok none →
        createHandler resolve method = .noResponse) := by
  refine ⟨?_, ?_, ?_, ?_⟩
  · intro e h; subst h; rfl
  · intro a e h hm; subst h; simp [createHandler, tryBody, Bind.bind, Except.bind, hm]
  · intro a v h hm; subst h; simp [createHandler, tryBody, Bind.bind, Except.bind, hm]
  · intro a h hm; subst h; simp [createHandler, tryBody, Bind.bind, Except.bind, hm]

/-! ## Route registration: structural lemmas -/

/-- The route-registration loop of `registerController` appends the built
routes to the application's table. -/
theorem foldl_addRoute (g : RouteMetadata → RegisteredRoute) (routes : List RouteMetadata)
    (w : World) :
    routes.foldl (fun acc r => { acc with table := acc.table ++ [g r] }) w
      = { w with table := w.table ++ routes.map g } := by
  induction routes generalizing w with
  | nil => simp
  | cons r rs ih => simp [List.foldl_cons, ih, List.append_assoc]

/-- Closed form of `registerController` on a decorated controller: the
instance is created when the controller has routes, the routes are appended
with the combined prefix, and the nested controllers are processed
afterwards under the combined prefix. -/
theorem registerController_node (pp : List Char) (name : String) (pfx : List Char)
    (routes : List RouteMetadata) (cls : List Nat) (mms : List (String × List Nat))
    (children : List Ctrl) (w : World) :
    registerController pp (.node name pfx routes cls mms children) w
      = registerControllerList (pp ++ pfx) children
          { table := w.table ++ routes.map (mkRegRoute (pp ++ pfx) cls mms),
            instances := w.instances ++ (if routes.length > 0 then [name] else []) } := by
  rw [registerController]
  rw [foldl_addRoute (mkRegRoute (pp ++ pfx) cls mms)]
  by_cases hr : routes.length > 0
  · simp only [hr, if_true, reduceIte]
    by_cases hc : children.length > 0
    · simp [hc]
    · have : children = [] := List.length_eq_zero.mp (by omega)
      subst this
      simp [registerControllerList]
  · have : routes = [] := List.length_eq_zero.mp (by omega)
    subst this
    by_cases hc : children.length > 0
    · simp [hc]
    · have : children = [] := List.length_eq_zero.mp (by omega)
      subst this
      simp [registerControllerList]

mutual

/-- `registerController` only appends to the world: its effect on any
starting world is the effect on the empty world, appended. -/
theorem registerController_delta (pp : List Char) (c : Ctrl) (w : World) :
    registerController pp c w
      = { table := w.table ++ (registerController pp c World.empty).table,
          instances := w.instances ++ (registerController pp c World.empty).instances } :=
  match c with
  | .undecorated _ => by simp [registerController, World.empty]
  | .node name pfx routes cls mms children => by
      rw [registerController_node, registerController_node,
        registerControllerList_delta (pp ++ pfx) children,
        registerControllerList_delta (pp ++ pfx) children
          { table := World.empty.table ++ routes.map (mkRegRoute (pp ++ pfx) cls mms),
            instances := World.empty.instances ++ (if routes.length > 0 then [name] else []) }]
      simp [World.empty, List.append_assoc]

/-- `registerControllerList` only appends to the world. -/
theorem registerControllerList_delta (pp : List Char) (cs : List Ctrl) (w : World) :
    registerControllerList pp cs w
      = { table := w.table ++ (registerControllerList pp cs World.empty).table,
          instances := w.instances ++ (registerControllerList pp cs World.empty).instances } :=
  match cs with
  | [] => by simp [registerControllerList, World.empty]
  | c :: rest => by
      rw [registerControllerList, registerControllerList,
        registerControllerList_delta pp rest (registerController pp c w),
        registerControllerList_delta pp rest (registerController pp c World.empty),
        registerController_delta pp c w]
      simp [World.empty, List.append_assoc]

end

/-- The routes contributed by a list of nested controllers: the
concatenation, in declaration order, of each child's contribution. -/
theorem registerControllerList_table (pp : List Char) (cs : List Ctrl) :
    (registerControllerList pp cs World.empty).table = (cs.map (routesOf pp)).flatten := by
  induction cs with
  | nil => simp [registerControllerList, World.empty]
  | cons c rest ih =>
      rw [registerControllerList, registerControllerList_delta pp rest
        (registerController pp c World.empty)]
      simp [routesOf, ih]

/-- The route table produced by one decorated controller: its own routes
(under the combined prefix), then its nested controllers' routes in
declaration order. -/
theorem routesOf_node (pp : List Char) (name : String) (pfx : List Char)
    (routes : List RouteMetadata) (cls : List Nat) (mms : List (String × List Nat))
    (children : List Ctrl) :
    routesOf pp (.node name pfx routes cls mms children)
      = routes.map (mkRegRoute (pp ++ pfx) cls mms)
        ++ (children.map (routesOf (pp ++ pfx))).flatten := by
  rw [routesOf, registerController_node,
    registerControllerList_delta (pp ++ pfx) children, registerControllerList_table]
  simp [World.empty]

/-- Extracting the `k`-th block out of a flattened list of lists. -/
theorem flatten_block {α : Type} (L : List (List α)) :
    ∀ (k : Nat) (hk : k < L.length),
      ((L.flatten).drop (((L.take k).map List.length).sum)).take (L.get ⟨k, hk⟩).length
        = L.get ⟨k, hk⟩ := by
  induction L with
  | nil => intro k hk; simp at hk
  | cons x L ih =>
      intro k hk
      cases k with
      | zero => simpa using List.take_left x L.flatten
      | succ k =>
          have hk' : k < L.length := by simpa using hk
          have := ih k hk'
          simpa [List.flatten_cons, List.drop_append] using this

/-! ## C8: depth-first registration order -/

/-- C8: for every decorated controller, the registered route table starts
with the parent's own routes in declaration order, and the block of routes
of the `k`-th nested controller sits after the parent's routes and after
the blocks of all earlier siblings, in declaration order. -/
theorem C8_depth_first_registration (pp : List Char) (name : String) (pfx : List Char)
    (routes : List RouteMetadata) (cls : List Nat) (mms : List (String × List Nat))
    (children : List Ctrl) :
    (routesOf pp (.node name pfx routes cls mms children)).take routes.length
      = routes.map (mkRegRoute (pp ++ pfx) cls mms)
    ∧ ∀ k (hk : k < children.length),
        ((routesOf pp (.node name pfx routes cls mms children)).drop
            (routes.length
              + (((children.take k).map (fun c => (routesOf (pp ++ pfx) c).length)).sum))).take
          (routesOf (pp ++ pfx) (children.get ⟨k, hk⟩)).length
        = routesOf (pp ++ pfx) (children.get ⟨k, hk⟩) := by
  rw [routesOf_node]
  constructor
  · have h := List.take_left (routes.map (mkRegRoute (pp ++ pfx) cls mms))
      ((children.map (routesOf (pp ++ pfx))).flatten)
    simpa using h
  · intro k hk
    have hlen : routes.length = (routes.map (mkRegRoute (pp ++ pfx) cls mms)).length := by
      simp
    rw [hlen, List.drop_append]
    have hk' : k < (children.map (routesOf (pp ++ pfx))).length := by simpa using hk
    have hblock := flatten_block (children.map (routesOf (pp ++ pfx))) k hk'
    have hget : (children.map (routesOf (pp ++ pfx))).get ⟨k, hk'⟩
        = routesOf (pp ++ pfx) (children.get ⟨k, hk⟩) := by
      simp
    have htake : ((children.map (routesOf (pp ++ pfx))).take k).map List.length
        = (children.take k).map (fun c => (routesOf (pp ++ pfx) c).length) := by
      rw [← List.map_take, List.map_map]
      rfl
    rw [htake, hget] at hblock
    exact hblock

/-- C8 witness: the sibling-block statement at a concrete parent with two
nested controllers, extracting the second sibling's block. -/
theorem C8_witness :
    1 < 2
    ∧ ((routesOf [] (.node "P" "/p".data [⟨"get", "/r".data, "h"⟩] [] []
          [.node "A" "/a".data [⟨"get", "/x".data, "hx"⟩] [] [] [],
           .node "B" "/b".data [⟨"get", "/y".data, "hy"⟩] [] [] []])).drop
        (1 + ((([.node "A" "/a".data [⟨"get", "/x".data, "hx"⟩] [] [] [],
                 .node "B" "/b".data [⟨"get", "/y".data, "hy"⟩] [] [] []].take 1).map
            (fun c => (routesOf ("".data ++ "/p".data) c).length)).sum))).take
        (routesOf ("".data ++ "/p".data)
          ([.node "A" "/a".data [⟨"get", "/x".data, "hx"⟩] [] [] [],
            .node "B" "/b".data [⟨"get", "/y".data, "hy"⟩] [] [] []].get ⟨1, by decide⟩)).length
      = routesOf ("".data ++ "/p".data)
          ([.node "A" "/a".data [⟨"get", "/x".data, "hx"⟩] [] [] [],
            .node "B" "/b".data [⟨"get", "/y".data, "hy"⟩] [] [] []].get ⟨1, by decide⟩) :=
  ⟨by decide,
    (C8_depth_first_registration [] "P" "/p".data [⟨"get", "/r".data, "h"⟩] [] []
      [.node "A" "/a".data [⟨"get", "/x".data, "hx"⟩] [] [] [],
       .node "B" "/b".data [⟨"get", "/y".data, "hy"⟩] [] [] []]).2 1 (by decide)⟩

/-! ## C1: parameter resolution order -/

/-- The stable sort by index permutes the parameter metadata. -/
theorem sortByIndex_perm (ps : List ParameterMetadata) : (sortByIndex ps).Perm ps :=
  List.perm_insertionSort _ ps

/-- The sort by index is sorted by index. -/
theorem sortByIndex_sorted (ps : List ParameterMetadata) :
    List.Sorted (fun a b : ParameterMetadata => a.index ≤ b.index) (sortByIndex ps) :=
  List.sorted_insertionSort _ ps

/-- With pairwise-distinct indices, the sort by index is strictly sorted. -/
theorem sortByIndex_strict (ps : List ParameterMetadata)
    (hnd : (ps.map (fun p => p.index)).Nodup) :
    List.Pairwise (fun a b : ParameterMetadata => a.index < b.index) (sortByIndex ps) := by
  have hle := sortByIndex_sorted ps
  have hnd' : ((sortByIndex ps).map (fun p => p.index)).Nodup :=
    ((sortByIndex_perm ps).map (fun p => p.index)).nodup_iff.mpr hnd
  have hne : (sortByIndex ps).Pairwise (fun a b : ParameterMetadata => a.index ≠ b.index) :=
    List.pairwise_map.mp hnd'
  exact (hle.and hne).imp (fun h => Nat.lt_of_le_of_ne h.1 h.2)

/-- Two lists of parameter metadata that are permutations of each other and
have pairwise-distinct indices sort identically. -/
theorem sortByIndex_eq_of_perm (ps qs : List ParameterMetadata) (hperm : ps.Perm qs)
    (hnd : (ps.map (fun p => p.index)).Nodup) :
    sortByIndex ps = sortByIndex qs := by
  have hndq : (qs.map (fun p => p.index)).Nodup := ((hperm.map _).nodup_iff).mp hnd
  exact List.eq_of_perm_of_sorted
    ((sortByIndex_perm ps).trans (hperm.trans (sortByIndex_perm qs).symm))
    (sortByIndex_strict ps hnd) (sortByIndex_strict qs hndq)

/-- When the declared indices are pairwise distinct and all below the list
length, the sorted metadata's index sequence is exactly `0, 1, …, n-1`. -/
theorem sortByIndex_map_index (ps : List ParameterMetadata)
    (hnd : (ps.map (fun p => p.index)).Nodup)
    (hcomp : ∀ p ∈ ps, p.index < ps.length) :
    (sortByIndex ps).map (fun p => p.index) = List.range ps.length := by
  haveI : IsAntisymm ℕ (fun a b : ℕ => a < b) :=
    ⟨fun a _ h1 h2 => absurd (h1.trans h2) (Nat.lt_irrefl a)⟩
  have hndl : ((sortByIndex ps).map (fun p => p.index)).Nodup :=
    ((sortByIndex_perm ps).map (fun p => p.index)).nodup_iff.mpr hnd
  apply List.eq_of_perm_of_sorted (r := fun a b : ℕ => a < b)
  · have hsub : (sortByIndex ps).map (fun p => p.index) ⊆ List.range ps.length := by
      intro x hx
      obtain ⟨p, hp, rfl⟩ := List.mem_map.mp hx
      exact List.mem_range.mpr (hcomp p ((sortByIndex_perm ps).mem_iff.mp hp))
    exact (List.subperm_of_subset hndl hsub).perm_of_length_le
      (by simp [(sortByIndex_perm ps).length_eq])
  · exact List.pairwise_map.mpr (sortByIndex_strict ps hnd)
  · exact List.pairwise_lt_range ps.length

/-- C1 counterexample: two parameter entries with the same declared index
(two parameter decorators applied to the same argument position) make the
resolved argument array depend on the metadata order: the stable sort keeps
input order among equal indices, so permuting the metadata permutes the
result — refuting the permutation-invariance part of the claim. -/
theorem C1_counterexample :
    ([⟨.query, some "a", 0⟩, ⟨.query, some "b", 0⟩] : List ParameterMetadata).Perm
      [⟨.query, some "b", 0⟩, ⟨.query, some "a", 0⟩]
    ∧ resolveParameters [⟨.query, some "a", 0⟩, ⟨.query, some "b", 0⟩]
        ⟨[], [("a", .str "A"), ("b", .str "B")], .undefined, []⟩
      ≠ resolveParameters [⟨.query, some "b", 0⟩, ⟨.query, some "a", 0⟩]
        ⟨[], [("a", .str "A"), ("b", .str "B")], .undefined, []⟩ :=
  ⟨List.Perm.swap _ _ _,
    fun h => absurd (congrArg (List.map Arg.render) h) (by decide)⟩

/-- C1 (amended): provided the entries of a method's parameter metadata
list carry pairwise-distinct indices, `resolveParameters` is invariant
under any permutation of the metadata list (the decorator application
order does not matter); and when the indices moreover are exactly the
argument positions `0 … n-1`, the value resolved for the parameter with
index `i` is placed at position `i` of the returned argument array. -/
theorem C1_parameter_resolution_order (ps : List ParameterMetadata) (req : Request)
    (hnd : (ps.map (fun p => p.index)).Nodup) :
    (∀ qs, ps.Perm qs → resolveParameters ps req = resolveParameters qs req)
    ∧ ((∀ p ∈ ps, p.index < ps.length) →
        ∀ p ∈ ps, (resolveParameters ps req)[p.index]? = some (resolveParam req p)) := by
  constructor
  · intro qs hq
    unfold resolveParameters
    rw [sortByIndex_eq_of_perm ps qs hq hnd]
  · intro hcomp p hp
    have hrange := sortByIndex_map_index ps hnd hcomp
    obtain ⟨j, hj⟩ := List.mem_iff_get.mp ((sortByIndex_perm ps).mem_iff.mpr hp)
    have hjlen : j.1 < ps.length :=
      Nat.lt_of_lt_of_le j.2 (Nat.le_of_eq (sortByIndex_perm ps).length_eq)
    have h1 : ((sortByIndex ps).map (fun p => p.index))[j.1]?
        = some ((sortByIndex ps).get j).index := by
      rw [List.getElem?_map, List.getElem?_eq_getElem j.2]
      simp [List.get_eq_getElem]
    have h2 : (List.range ps.length)[j.1]? = some j.1 := by
      rw [List.getElem?_eq_getElem (by simpa using hjlen)]
      simp
    have hidx : ((sortByIndex ps).get j).index = j.1 :=
      Option.some.inj (h1.symm.trans (by rw [hrange]; exact h2))
    have hpj : p.index = j.1 := by rw [← hj]; exact hidx
    have hgp : (sortByIndex ps)[p.index]? = some p := by
      rw [hpj, List.getElem?_eq_getElem (by simpa using j.2)]
      simpa [List.get_eq_getElem] using hj
    rw [resolveParameters, List.getElem?_map, hgp]
    rfl

/-- C1 witness: the amended theorem at two query parameters declared in
reverse order, with indices `1` and `0`: the index-0 value lands at
position 0. -/
theorem C1_witness :
    (([⟨.query, some "b", 1⟩, ⟨.query, some "a", 0⟩] : List ParameterMetadata).map
        (fun p => p.index)).Nodup
    ∧ (resolveParameters [⟨.query, some "b", 1⟩, ⟨.query, some "a", 0⟩]
        ⟨[], [("a", .str "A"), ("b", .str "B")], .undefined, []⟩)[0]?
      = some (resolveParam ⟨[], [("a", .str "A"), ("b", .str "B")], .undefined, []⟩
          ⟨.query, some "a", 0⟩) :=
  ⟨by decide,
    (C1_parameter_resolution_order [⟨.query, some "b", 1⟩, ⟨.query, some "a", 0⟩]
      ⟨[], [("a", .str "A"), ("b", .str "B")], .undefined, []⟩ (by decide)).2
      (by decide) ⟨.query, some "a", 0⟩ (by decide)⟩

/-! ## C2: nested-controller prefix concatenation -/

/-- Registering a linear chain of nested controllers registers the
innermost routes at the textual concatenation of the ancestor prefixes and
the route path, in declaration order. -/
theorem routesOf_chainCtrl :
    ∀ (pfxs : List (List Char)) (pp : List Char) (routes : List RouteMetadata),
      routesOf pp (chainCtrl routes pfxs)
        = routes.map (fun r =>
            { method := r.method, path := pp ++ pfxs.flatten ++ r.path,
              chain := buildChain [] [] r.propertyKey })
  | [], pp, routes => by
      simp [chainCtrl, routesOf_node, mkRegRoute]
  | [p], pp, routes => by
      simp [chainCtrl, routesOf_node, mkRegRoute]
  | p :: q :: rest, pp, routes => by
      rw [show chainCtrl routes (p :: q :: rest)
          = .node "C" p [] [] [] [chainCtrl routes (q :: rest)] from rfl, routesOf_node]
      simp [routesOf_chainCtrl (q :: rest) (pp ++ p) routes, List.append_assoc]

/-- C2 counterexample: with a controller prefix `"/a/"` (left unchanged by
the decorator's leading-slash fix-up) and a route path `"/b"`, the
registered full path is `"/a//b"`, which contains a duplicate separator —
refuting the no-`"//"` part of the claim. -/
theorem C2_counterexample :
    (routesOf [] (Ctrl.node "A" (normalizeControllerPrefix "/a/".data)
        [createRouteDecoratorRoute "get" "/b".data "h"] [] [] [])).map
      (fun rr => (rr.path, hasDoubleSlash rr.path))
      = [("/a//b".data, true)] := by
  decide

/-- No `"//"` appears in `a ++ b` if none appears in `a` or in `b` and the
boundary does not put two `'/'` together. -/
theorem hasDoubleSlash_append :
    ∀ (a b : List Char), hasDoubleSlash a = false → hasDoubleSlash b = false →
      ¬(a.getLast? = some '/' ∧ b.head? = some '/') → hasDoubleSlash (a ++ b) = false
  | [], b, _, hb, _ => hb
  | [c], b, _, hb, hab => by
      cases b with
      | nil => rfl
      | cons b1 bs =>
          have hcb : ¬(c = '/' ∧ b1 = '/') := by simpa [List.getLast?] using hab
          simp only [List.cons_append, List.nil_append, hasDoubleSlash, hb,
            Bool.or_false, Bool.and_eq_false_iff, decide_eq_false_iff_not]
          tauto
  | c1 :: c2 :: rest, b, ha, hb, hab => by
      have ha' : ((c1 = '/' && c2 = '/') || hasDoubleSlash (c2 :: rest)) = false := ha
      simp only [Bool.or_eq_false_iff] at ha'
      have htail := hasDoubleSlash_append (c2 :: rest) b ha'.2 hb
        (by simpa [List.getLast?_cons_cons] using hab)
      simp only [List.cons_append, hasDoubleSlash]
      rw [List.cons_append] at htail
      simp [htail, ha'.1]

/-- Well-formed segments are closed under concatenation. -/
theorem goodSeg_append (a b : List Char) (ha : goodSeg a) (hb : goodSeg b) :
    goodSeg (a ++ b) := by
  obtain ⟨ha1, ha2, ha3⟩ := ha
  obtain ⟨hb1, hb2, hb3⟩ := hb
  have hbne : b ≠ [] := by intro h; rw [h] at hb1; simp at hb1
  have hane : a ≠ [] := by intro h; rw [h] at ha1; simp at ha1
  refine ⟨?_, ?_, ?_⟩
  · cases a with
    | nil => simp at ha1
    | cons x xs => simpa using ha1
  · rw [List.getLast?_append_of_ne_nil _ hbne]; exact hb2
  · exact hasDoubleSlash_append a b ha3 hb3 (fun h => ha2 h.1)

/-- Concatenating well-formed prefixes in front of a well-formed path
yields a well-formed path. -/
theorem goodSeg_flatten_append (pfxs : List (List Char)) (t : List Char)
    (hp : ∀ p ∈ pfxs, goodSeg p) (ht : goodSeg t) : goodSeg (pfxs.flatten ++ t) := by
  induction pfxs with
  | nil => simpa using ht
  | cons p ps ih =>
      rw [List.flatten_cons, List.append_assoc]
      exact goodSeg_append p _ (hp p (by simp))
        (ih (fun q hq => hp q (by simp [hq])))

/-- C2 (amended): for every chain of nested controllers, the full path of
each registered route is the ancestor prefixes, the controller's own
prefix and the route path concatenated textually in declaration order; and
whenever every prefix in the chain and every route path is a well-formed
segment (one leading `'/'`, no trailing `'/'`, no internal `"//"`), every
registered full path starts with `'/'` and contains no duplicate and no
missing separator (no `"//"` anywhere, every segment boundary contributing
exactly its own leading `'/'`). -/
theorem C2_nested_prefixes (pfxs : List (List Char)) (routes : List RouteMetadata) :
    routesOf [] (chainCtrl routes pfxs)
      = routes.map (fun r =>
          { method := r.method, path := pfxs.flatten ++ r.path,
            chain := buildChain [] [] r.propertyKey })
    ∧ ((∀ p ∈ pfxs, goodSeg p) → (∀ r ∈ routes, goodSeg r.path) →
        ∀ rr ∈ routesOf [] (chainCtrl routes pfxs), goodSeg rr.path) := by
  have hpaths := routesOf_chainCtrl pfxs [] routes
  simp only [List.nil_append] at hpaths
  refine ⟨hpaths, ?_⟩
  intro hp hr rr hrr
  rw [hpaths] at hrr
  obtain ⟨r, hrmem, rfl⟩ := List.mem_map.mp hrr
  exact goodSeg_flatten_append pfxs r.path hp (hr r hrmem)

/-- C2 witness: the amended theorem at a concrete two-level chain
`/api` → `/users` with route `/active`, giving `/api/users/active`. -/
theorem C2_witness :
    ((∀ p ∈ ["/api".data, "/users".data], goodSeg p)
      ∧ (∀ r ∈ [({method := "get", path := "/active".data, propertyKey := "h"} : RouteMetadata)],
          goodSeg r.path))
    ∧ ∀ rr ∈ routesOf []
        (chainCtrl [{method := "get", path := "/active".data, propertyKey := "h"}]
          ["/api".data, "/users".data]),
        goodSeg rr.path :=
  ⟨⟨by decide, by decide⟩,
    (C2_nested_prefixes ["/api".data, "/users".data]
      [{method := "get", path := "/active".data, propertyKey := "h"}]).2
      (by decide) (by decide)⟩

/-! ## C4: RESTful resource routes -/

/-- JavaScript `split` never returns an empty array. -/
theorem splitOnDot_ne_nil : ∀ (l : List Char), splitOnDot l ≠ []
  | [] => by simp [splitOnDot]
  | c :: cs => by
      rw [splitOnDot]
      match h : splitOnDot cs with
      | [] => simp
      | s :: rest => by_cases hc : c = '.' <;> simp [hc]

/-- The reduce-with-push of `createSegments` is the flat map of each
literal segment to the pair (literal, placeholder). -/
theorem foldl_push_pair {α β : Type} (g : α → β) (f : α → β) :
    ∀ (ls : List α) (acc : List β),
      ls.foldl (fun acc s => acc ++ [g s, f s]) acc = acc ++ ls.flatMap (fun s => [g s, f s])
  | [], acc => by simp
  | s :: rest, acc => by
      rw [List.foldl_cons, foldl_push_pair g f rest]
      simp [List.append_assoc]

/-- `createSegments` expands the dot-split resource path into alternating
literal/placeholder segments. -/
theorem createSegments_eq_flatMap (singular : List Char → List Char) (opts : ResourceOptions) :
    createSegments singular opts
      = (splitOnDot opts.path).flatMap (fun s => [s, segmentParam singular opts s]) := by
  rw [createSegments, foldl_push_pair]
  simp

/-- In a flat map of literal/placeholder pairs over a non-empty list, the
last element is the placeholder of the last literal, and the last element
after dropping it is the last literal itself. -/
theorem flatMap_pair_getLast {α β : Type} (f : α → β) (g : α → β) :
    ∀ (ls : List α), ls ≠ [] →
      ∃ l, ls.getLast? = some l
        ∧ (ls.flatMap (fun s => [f s, g s])).getLast? = some (g l)
        ∧ (ls.flatMap (fun s => [f s, g s])).dropLast.getLast? = some (f l)
  | [], h => absurd rfl h
  | [x], _ => ⟨x, rfl, rfl, rfl⟩
  | x :: y :: rest, _ => by
      obtain ⟨l, hl, hlast, hdrop⟩ := flatMap_pair_getLast f g (y :: rest) (by simp)
      refine ⟨l, by simpa [List.getLast?_cons_cons] using hl, ?_, ?_⟩
      · rw [show (x :: y :: rest).flatMap (fun s => [f s, g s])
            = [f x, g x] ++ (y :: rest).flatMap (fun s => [f s, g s]) from rfl]
        rw [List.getLast?_append_of_ne_nil _ (by simp [List.flatMap_cons])]
        exact hlast
      · rw [show (x :: y :: rest).flatMap (fun s => [f s, g s])
            = [f x, g x] ++ (y :: rest).flatMap (fun s => [f s, g s]) from rfl]
        rw [List.dropLast_append_of_ne_nil _ (by simp [List.flatMap_cons])]
        rw [List.getLast?_append_of_ne_nil _ ?hne]
        · exact hdrop
        · intro hnil
          rw [hnil] at hdrop
          simp at hdrop

/-- C4: the `Resource` decorator expands a dotted resource name into
alternating literal/placeholder segments; the six conventional method
names map to their HTTP verbs; each action present on the class is
registered with that verb and with the path whose joined segment list is
the full alternating list when the action takes an identifier placeholder
and the list without its trailing placeholder otherwise — so the last
segment is the trailing identifier placeholder for show/update/patch/delete
and the literal collection name for index/create. -/
theorem C4_resource_routes (singular : List Char → List Char) (opts : ResourceOptions)
    (present : String → Bool) :
    createSegments singular opts
      = (splitOnDot opts.path).flatMap (fun s => [s, segmentParam singular opts s])
    ∧ resourceActions.map (fun a => (a.name, a.method))
      = [("index", "get"), ("show", "get"), ("create", "post"), ("update", "put"),
         ("patch", "patch"), ("delete", "delete")]
    ∧ (∀ a ∈ resourceActions, present a.name = true →
        ({ method := a.method,
           path := '/' :: List.intercalate ['/']
             (if a.placeholder then createSegments singular opts
              else (createSegments singular opts).dropLast),
           propertyKey := a.name } : RouteMetadata) ∈ resourceRoutes singular opts present)
    ∧ (∃ l, (splitOnDot opts.path).getLast? = some l
        ∧ (createSegments singular opts).getLast? = some (segmentParam singular opts l)
        ∧ (createSegments singular opts).dropLast.getLast? = some l) := by
  refine ⟨createSegments_eq_flatMap singular opts, rfl, ?_, ?_⟩
  · intro a ha hp
    refine List.mem_filterMap.mpr ⟨a, ha, ?_⟩
    simp [hp]
  · obtain ⟨l, hl, hlast, hdrop⟩ :=
      flatMap_pair_getLast (fun s => s) (segmentParam singular opts)
        (splitOnDot opts.path) (splitOnDot_ne_nil opts.path)
    exact ⟨l, hl, by rw [createSegments_eq_flatMap]; exact hlast,
      by rw [createSegments_eq_flatMap]; exact hdrop⟩

/-- C4 witness: at the concrete resource `"users"` with `show` present, the
`GET` route with the trailing identifier placeholder is registered. -/
theorem C4_witness :
    (⟨"show", true, "get"⟩ ∈ resourceActions ∧ (fun n => n == "show") "show" = true)
    ∧ ({ method := "get",
         path := '/' :: List.intercalate ['/']
           (if true then createSegments (fun s => s.dropLast) ⟨"users".data, []⟩
            else (createSegments (fun s => s.dropLast) ⟨"users".data, []⟩).dropLast),
         propertyKey := "show" } : RouteMetadata)
      ∈ resourceRoutes (fun s => s.dropLast) ⟨"users".data, []⟩ (fun n => n == "show") :=
  ⟨⟨by decide, by decide⟩,
    (C4_resource_routes (fun s => s.dropLast) ⟨"users".data, []⟩ (fun n => n == "show")).2.2.1
      ⟨"show", true, "get"⟩ (by decide) (by decide)⟩

/-! ## C9: undecorated classes are skipped -/

/-- C9: registering a class without controller metadata changes nothing:
the application's route table and the container's created instances are
untouched, and inserting such a class anywhere in the bootstrap controller
list leaves the final registration state exactly as if it were absent.
(`registerController` never writes metadata, so metadata is trivially
unmodified.) -/
theorem C9_undecorated_no_effect :
    (∀ (pp : List Char) (n : String) (w : World),
      registerController pp (.undecorated n) w = w)
    ∧ (∀ (xs ys : List Ctrl) (n : String) (w : World),
        registerAll (xs ++ .undecorated n :: ys) w = registerAll (xs ++ ys) w) := by
  have hskip : ∀ (pp : List Char) (n : String) (w : World),
      registerController pp (.undecorated n) w = w := by
    intro pp n w; rw [registerController]
  refine ⟨hskip, ?_⟩
  intro xs ys n w
  simp only [registerAll, List.foldl_append, List.foldl_cons, hskip]

/-- C10 witness: with a successful resolution and a method returning a
defined value, the handler sends that value as JSON. -/
theorem C10_witness :
    ((Except.ok 1 : Except Nat Nat) = .ok 1
      ∧ (fun a : Nat => (Except.ok (some a) : Except Nat (Option Nat))) 1 = .ok (some 1))
    ∧ createHandler (Except.ok 1 : Except Nat Nat)
        (fun a : Nat => (Except.ok (some a) : Except Nat (Option Nat))) = .jsonSent 1 :=
  ⟨⟨rfl, rfl⟩,
    (C10_handler_dispatch Nat Nat Nat (.ok 1) (fun a => .ok (some a))).2.2.1 1 1 rfl rfl⟩

end ExpressPlus
